import Mathlib

/-!
Verification of the sftool firmware-flashing engine against its design
specification.  The Rust sources (sftool-lib: write_flash.rs, ram_command.rs,
lib.rs) are shallowly embedded below: machine integers become `Nat` (masks and
little-endian decoding written out explicitly), files become `List Nat` of
byte values, the serial port becomes an explicit state record, and the
wall-clock response deadline becomes exhaustion of the finite incoming byte
stream.  Each claim of the specification is then settled as a theorem about
these definitions.
-/

set_option maxRecDepth 8000

/-! ## CRC32 (write_flash.rs, get_file_crc32)

The source instantiates the `crc` crate with
`Algorithm { width: 32, poly: 0x04C11DB7, init: 0, refin: true, refout: true,
xorout: 0, check: 0x2DFD2D88, .. }`.  With input and output reflection and a
reflected-domain init of 0 this is the standard reflected CRC-32 computed with
the reversed polynomial 0xEDB88320 and no final xor. -/

def crc32_step (crc : Nat) : Nat :=
  if crc % 2 = 1 then (crc / 2) ^^^ 0xEDB88320 else crc / 2

def crc32_byte (crc b : Nat) : Nat :=
  (crc32_step)^[8] (crc ^^^ b)

def crc32_update (crc : Nat) (bytes : List Nat) : Nat :=
  bytes.foldl crc32_byte crc

def crc32 (bytes : List Nat) : Nat := crc32_update 0 bytes

/-- ASCII bytes of a string (all wire strings in the protocol are ASCII). -/
def strBytes (s : String) : List Nat := s.data.map Char.toNat

/-- The function `get_file_crc32` reads the file through a buffer of `k + 1` bytes and
feeds each filled buffer to the digest in turn (the source uses a 4096-byte
buffer, i.e. `k = 4095`; the parameter is kept so that independence from the
buffer size can be stated). -/
def get_file_crc32_go (k : Nat) : Nat → List Nat → Nat
  | crc, [] => crc
  | crc, b :: rest =>
    get_file_crc32_go k (crc32_update crc ((b :: rest).take (k + 1)))
      ((b :: rest).drop (k + 1))
  termination_by _ l => l.length
  decreasing_by simp [List.length_drop]; omega

/-- Embeds `get_file_crc32` of write_flash.rs: digest of a whole file,
computed through the 4096-byte read buffer of the source. -/
def get_file_crc32 (bytes : List Nat) : Nat := get_file_crc32_go 4095 0 bytes

/-! ## Image Normalizer (write_flash.rs) -/

/-- A finalized flash chunk: `WriteFlashFile { address, file, crc32 }`. -/
structure WriteFlashFile where
  address : Nat
  file : List Nat
  crc32 : Nat
  deriving DecidableEq, Repr

/-- Every place the source pushes a `WriteFlashFile` computes the crc with
`get_file_crc32` over the assembled bytes. -/
def mkWriteFlashFile (address : Nat) (bytes : List Nat) : WriteFlashFile :=
  { address := address, file := bytes, crc32 := get_file_crc32 bytes }

/-- Intel-HEX records as delivered by the `ihex` crate to `hex_to_bin`
(the record kinds the source does not match on are collapsed into `Other`). -/
inductive IhexRecord where
  | Data (offset : Nat) (value : List Nat)
  | EndOfFile
  | ExtendedLinearAddress (addr : Nat)
  | Other
  deriving DecidableEq, Repr

/-- One `Data` record written into the staging buffer: if the buffer is
shorter than `offset` it is first extended with 0xFF up to `offset`, then the
bytes are written in place at `offset` (seek + write_all). -/
def hexWriteAt (file : List Nat) (offset : Nat) (value : List Nat) : List Nat :=
  let padded :=
    if file.length < offset then
      file ++ List.replicate (offset - file.length) 0xFF
    else file
  padded.take offset ++ value ++ padded.drop (offset + value.length)

/-- The record loop of `hex_to_bin`: running extended linear `address`,
one growing staging buffer `temp` (the source never resets the temp file),
a chunk finalized at each EndOfFile record. -/
def hex_to_bin_go : Nat → List Nat → List IhexRecord → List WriteFlashFile
  | _, _, [] => []
  | _, temp, IhexRecord.ExtendedLinearAddress a :: rs =>
    hex_to_bin_go ((a % 65536) * 65536) temp rs
  | address, temp, IhexRecord.Data offset value :: rs =>
    hex_to_bin_go address (hexWriteAt temp offset value) rs
  | address, temp, IhexRecord.EndOfFile :: rs =>
    mkWriteFlashFile address temp :: hex_to_bin_go address temp rs
  | address, temp, IhexRecord.Other :: rs => hex_to_bin_go address temp rs

/-- Embeds `hex_to_bin` of write_flash.rs. -/
def hex_to_bin (records : List IhexRecord) : List WriteFlashFile :=
  hex_to_bin_go 0 [] records

/-! ### ELF input (write_flash.rs, elf_to_bin) -/

/-- The fields of a program header that `elf_to_bin` reads, with `seg_data`
standing for the `p_filesz` bytes at `p_offset` of the mapped file. -/
structure ProgramHeader where
  p_type : Nat
  p_paddr : Nat
  seg_data : List Nat
  deriving DecidableEq, Repr

def PT_LOAD : Nat := 1

def SECTOR_SIZE : Nat := 0x1000

/-- Computes `addr & !(SECTOR_SIZE - 1)` for the power-of-two sector size. -/
def alignDown (a : Nat) : Nat := a / SECTOR_SIZE * SECTOR_SIZE

/-- Loop state of `elf_to_bin`: finalized files, current staging buffer,
its base address, and the tracked `current_offset`. -/
structure ElfAcc where
  files : List WriteFlashFile
  cur : List Nat
  base : Nat
  off : Nat

/-- First half of a segment iteration of `elf_to_bin`: when the segment's
sector-aligned base lies beyond the current chunk's logical end, finalize
the current chunk and start a fresh one at the segment's aligned base. -/
def elf_push_if_new (acc : ElfAcc) (segment_base : Nat) : ElfAcc :=
  if acc.base + acc.off < segment_base then
    { files := acc.files ++ [mkWriteFlashFile acc.base acc.cur],
      cur := [], base := segment_base, off := 0 }
  else acc

/-- Second half: pad the gap between the current offset and the segment's
offset relative to the chunk base with the 0xFF fill byte. -/
def elf_pad_gap (acc : ElfAcc) (rel : Nat) : ElfAcc :=
  if acc.off < rel then
    { acc with cur := acc.cur ++ List.replicate (rel - acc.off) 0xFF,
               off := rel }
  else acc

/-- One iteration of the segment loop of `elf_to_bin`: possibly finalize and
restart, pad the gap, then append the segment bytes and advance the
offset. -/
def elf_step (acc : ElfAcc) (ph : ProgramHeader) : ElfAcc :=
  let acc1 := elf_push_if_new acc (alignDown ph.p_paddr)
  let acc2 := elf_pad_gap acc1 (ph.p_paddr - acc1.base)
  { acc2 with cur := acc2.cur ++ ph.seg_data,
              off := acc2.off + ph.seg_data.length }

/-- The chunk-coalescing loop of `elf_to_bin` over the already filtered and
sorted load segments: start at the first segment's aligned base, fold, and
finalize the last chunk if it is non-empty. -/
def elf_chunks : List ProgramHeader → List WriteFlashFile
  | [] => []
  | s0 :: rest =>
    let acc := (s0 :: rest).foldl elf_step
      { files := [], cur := [], base := alignDown s0.p_paddr, off := 0 }
    if 0 < acc.off then acc.files ++ [mkWriteFlashFile acc.base acc.cur]
    else acc.files

/-- Embeds `elf_to_bin` of write_flash.rs: keep PT_LOAD segments with
`p_paddr < 0x2000_0000`, stable-sort them by `p_paddr` (the source's
`sort_by_key` is a stable sort), coalesce into sector-aligned chunks. -/
def elf_to_bin (phs : List ProgramHeader) : List WriteFlashFile :=
  elf_chunks
    (List.insertionSort (fun a b => a.p_paddr ≤ b.p_paddr)
      (phs.filter (fun ph => ph.p_type == PT_LOAD && ph.p_paddr < 0x20000000)))

/-- One input argument of `write_flash`, after the `file@address` split and
file-type detection: a raw binary with an explicit address, an Intel-HEX
file, or an ELF file. -/
inductive InputFile where
  | binAt (address : Nat) (data : List Nat)
  | hexFile (records : List IhexRecord)
  | elfFile (phs : List ProgramHeader)

/-- The chunk-collection loop of `write_flash` (lines 316-349): chunks are
appended in input order; a `bin@address` argument contributes one chunk, a
HEX or ELF argument contributes the chunks of its converter. -/
def collect_write_flash_files (inputs : List InputFile) : List WriteFlashFile :=
  inputs.flatMap fun i =>
    match i with
    | InputFile.binAt a d => [mkWriteFlashFile a d]
    | InputFile.hexFile rs => hex_to_bin rs
    | InputFile.elfFile phs => elf_to_bin phs

/-- End of the address range of a chunk. -/
def chunkEnd (f : WriteFlashFile) : Nat := f.address + f.file.length

/-- The property claimed of a normalized chunk list: consecutive chunks are
strictly ascending by address and their address ranges are disjoint. -/
def disjointSortedAsc : List WriteFlashFile → Bool
  | [] => true
  | [_] => true
  | a :: b :: rest => decide (chunkEnd a ≤ b.address) && disjointSortedAsc (b :: rest)

/-! ## Burn Protocol Codec (ram_command.rs) -/

/-- The closed response set. -/
inductive Response where
  | Ok
  | Fail
  | RxWait
  deriving DecidableEq, Repr

/-- The closed command set. -/
inductive Command where
  | EraseAll (address : Nat)
  | Verify (address len crc : Nat)
  | WriteAndErase (address len : Nat)
  | Write (address len : Nat)
  | SoftReset
  | SetBaud (baud delay : Nat)
  deriving DecidableEq, Repr

def hexDigit (n : Nat) : Char :=
  if n < 10 then Char.ofNat (48 + n) else Char.ofNat (87 + n)

/-- Lowercase zero-padded 8-digit hex rendering of a u32, as produced by the
strum format string of the source. -/
def hex8_go : Nat → Nat → List Char
  | 0, _ => []
  | k + 1, n => hex8_go k (n / 16) ++ [hexDigit (n % 16)]

def hex8 (n : Nat) : String := String.mk (hex8_go 8 n)

/-- The strum `to_string` encodings of ram_command.rs. -/
def renderCommand : Command → String
  | Command.EraseAll a => "burn_erase_all 0x" ++ hex8 a ++ "\r"
  | Command.Verify a l c =>
    "burn_verify 0x" ++ hex8 a ++ " 0x" ++ hex8 l ++ " 0x" ++ hex8 c ++ "\r"
  | Command.WriteAndErase a l =>
    "burn_erase_write 0x" ++ hex8 a ++ " 0x" ++ hex8 l ++ "\r"
  | Command.Write a l => "burn_write 0x" ++ hex8 a ++ " 0x" ++ hex8 l ++ "\r"
  | Command.SoftReset => "burn_reset\r"
  | Command.SetBaud b d =>
    "burn_speed " ++ toString b ++ " " ++ toString d ++ "\r"

/-- The `RESPONSE_STR_TABLE` of ram_command.rs, in its fixed order. -/
def RESPONSE_STR_TABLE : List String := ["OK", "Fail", "RX_WAIT"]

/-- Decoding `Response::from_str` on the table entries (the strum serializations). -/
def response_from_str (s : String) : Option Response :=
  if s = "OK" then some Response.Ok
  else if s = "Fail" then some Response.Fail
  else if s = "RX_WAIT" then some Response.RxWait
  else none

/-- The containment test of the read loop: `buffer.windows(n).any(w == tok)`,
i.e. the token occurs contiguously somewhere in the accumulated buffer. -/
def bufferHasToken (buffer tok : List Nat) : Bool := decide (tok <:+: buffer)

/-- The per-byte scan: try each table entry in order on the accumulated
buffer, decode the first one contained in it. -/
def scanResponse (buffer : List Nat) : Option Response :=
  (RESPONSE_STR_TABLE.find? fun t => bufferHasToken buffer (strBytes t)).bind
    response_from_str

/-- Error outcomes of a codec call. -/
inductive CmdError where
  | timedOut
  deriving DecidableEq, Repr

/-- The byte-accumulation read loop shared by `command` and `send_data`:
append one incoming byte at a time to the accumulator and scan after every
byte; an exhausted incoming stream stands for the wall-clock deadline
expiring with no token found. -/
def readResponse_go (buffer : List Nat) : List Nat → Except CmdError Response
  | [] => Except.error CmdError.timedOut
  | b :: rest =>
    match scanResponse (buffer ++ [b]) with
    | some r => Except.ok r
    | none => readResponse_go (buffer ++ [b]) rest

def readResponse (incoming : List Nat) : Except CmdError Response :=
  readResponse_go [] incoming

/-- The serial port as the codec sees it: bytes already buffered inbound
(possibly stale, from an earlier exchange), bytes that will arrive next, and
everything written outbound so far. -/
structure PortState where
  pending : List Nat
  incoming : List Nat
  written : List Nat
  deriving DecidableEq, Repr

def port_write (p : PortState) (bytes : List Nat) : PortState :=
  { p with written := p.written ++ bytes }

/-- Models `port.clear(ClearBuffer::All)`: drop the buffered inbound bytes. -/
def port_clear_all (p : PortState) : PortState := { p with pending := [] }

/-- The bytes a subsequent read loop would consume, in order. -/
def port_read_stream (p : PortState) : List Nat := p.pending ++ p.incoming

/-- The per-command response deadline of `command` (ms): 30000 for EraseAll,
else the 4000 ms `TIMEOUT` constant. -/
def timeout_for : Command → Nat
  | Command.EraseAll _ => 30 * 1000
  | _ => 4000

/-- Embeds `command` of ram_command.rs: write the rendered command, flush,
clear the inbound buffer, then (except for the fire-and-forget SetBaud, which
returns Ok immediately) run the byte-accumulation read loop. -/
def command (cmd : Command) (p : PortState) : PortState × Except CmdError Response :=
  let p1 := port_write p (strBytes (renderCommand cmd))
  let p2 := port_clear_all p1
  match cmd with
  | Command.SetBaud _ _ => (p2, Except.ok Response.Ok)
  | _ => (p2, readResponse (port_read_stream p2))

/-! ## Flash Write Orchestrator (write_flash.rs, impl SifliTool) -/

/-- The erase-all loop of `erase_all` (write_flash.rs lines 262-271): walk
the chunks, mask each address to its top byte, skip banks already erased,
otherwise issue `EraseAll` with the chunk's full address and record the bank.
Returns the commands issued, in order. -/
def erase_all_go : List Nat → List WriteFlashFile → List Command
  | _, [] => []
  | erased, f :: fs =>
    let address := f.address &&& 0xFF000000
    if erased.contains address then erase_all_go erased fs
    else Command.EraseAll f.address :: erase_all_go (erased ++ [address]) fs

/-- Embeds `SifliTool::erase_all`, starting from an empty erased-bank list. -/
def erase_all (files : List WriteFlashFile) : List Command :=
  erase_all_go [] files

/-- The bank of a chunk or of an issued EraseAll command: the address masked
to its top byte. -/
def bankOf (a : Nat) : Nat := a &&& 0xFF000000

/-- Whether a command is an EraseAll for bank `b`. -/
def isEraseAllForBank (b : Nat) : Command → Bool
  | Command.EraseAll a => bankOf a == b
  | _ => false

/-- Errors surfaced by the orchestrator (all are `std::io::Error` values in
the source; the constructor records which failure branch produced it). -/
inductive FlashError where
  | writeFailed
  | verifyFailed
  | timedOut
  deriving DecidableEq, Repr

/-- What the orchestrator sends while processing chunks: a protocol command
or a raw payload buffer. -/
inductive HostAction where
  | cmd (c : Command)
  | payload (data : List Nat)
  deriving DecidableEq, Repr

/-- The payload-streaming loop of the non-erase-all branch of `write_flash`
(lines 411-429): read up to `k` bytes of the chunk file at a time; an empty
read ends the loop; after each buffer is sent the device answer is consumed
from `resps` (an exhausted `resps` stands for the response deadline
expiring).  RxWait continues the loop; any answer other than RxWait or Ok
aborts with a write error; Ok falls through to the next read.  Returns the
payload buffers sent and the outcome. -/
def stream_payloads (k : Nat) (data : List Nat) (resps : List Response) :
    List (List Nat) × Except FlashError Unit :=
  if h : data.take k = [] then ([], Except.ok ())
  else
    match resps with
    | [] => ([data.take k], Except.error FlashError.timedOut)
    | r :: rs =>
      if r = Response.RxWait then
        let rest := stream_payloads k (data.drop k) rs
        (data.take k :: rest.1, rest.2)
      else if r ≠ Response.Ok then
        ([data.take k], Except.error FlashError.writeFailed)
      else
        let rest := stream_payloads k (data.drop k) rs
        (data.take k :: rest.1, rest.2)
  termination_by data.length
  decreasing_by
  all_goals
    rw [List.take_eq_nil_iff] at h
    push_neg at h
    simp [List.length_drop]
    rcases h with ⟨hk, hd⟩
    have : 0 < data.length := List.length_pos.mpr hd
    omega

/-- The device's scripted answers for one chunk of the non-erase-all branch:
the answer to the initial Verify, the answer to WriteAndErase, the answers to
the streamed payload buffers, and the answer to the optional final Verify. -/
structure ChunkScript where
  verifyResp : Response
  writeEraseResp : Response
  payloadResps : List Response
  finalVerifyResp : Response
  deriving DecidableEq, Repr

/-- The read-buffer size of the payload-streaming loop of the non-erase-all
branch (write_flash.rs line 408: `vec![0u8; 128 * 1024]`). -/
def STREAM_BUF_SIZE : Nat := 128 * 1024

/-- One chunk of the non-erase-all branch of `write_flash` (lines 364-479):
issue Verify; Ok skips the chunk (and its final verify) entirely; otherwise
issue WriteAndErase, whose only acceptable answer is RxWait; then stream the
chunk file; then, when `doVerify` is set, issue the final Verify and require
Ok.  Returns the actions issued for this chunk and the outcome. -/
def write_chunk_no_erase_all (doVerify : Bool) (f : WriteFlashFile)
    (s : ChunkScript) : List HostAction × Except FlashError Unit :=
  let vcmd := HostAction.cmd (Command.Verify f.address f.file.length f.crc32)
  if s.verifyResp = Response.Ok then ([vcmd], Except.ok ())
  else
    let wcmd := HostAction.cmd (Command.WriteAndErase f.address f.file.length)
    if s.writeEraseResp ≠ Response.RxWait then
      ([vcmd, wcmd], Except.error FlashError.writeFailed)
    else
      let st := stream_payloads STREAM_BUF_SIZE f.file s.payloadResps
      let acts := vcmd :: wcmd :: st.1.map HostAction.payload
      match st.2 with
      | Except.error e => (acts, Except.error e)
      | Except.ok _ =>
        if doVerify then
          (acts ++ [HostAction.cmd (Command.Verify f.address f.file.length f.crc32)],
           if s.finalVerifyResp = Response.Ok then Except.ok ()
           else Except.error FlashError.verifyFailed)
        else (acts, Except.ok ())

/-- The per-chunk loop of `write_flash` in non-erase-all mode: chunks are
processed in list order, the first error aborts the remainder. -/
def write_flash_loop (doVerify : Bool) :
    List (WriteFlashFile × ChunkScript) → List HostAction × Except FlashError Unit
  | [] => ([], Except.ok ())
  | (f, s) :: rest =>
    let r := write_chunk_no_erase_all doVerify f s
    match r.2 with
    | Except.error e => (r.1, Except.error e)
    | Except.ok _ =>
      let r2 := write_flash_loop doVerify rest
      (r.1 ++ r2.1, r2.2)

/-! ## Stub Bootstrapper (lib.rs, download_stub) -/

/-- Core registers written by the bootstrapper. -/
inductive CoreReg where
  | SP
  | PC
  deriving DecidableEq, Repr

/-- Operations `download_stub` performs on the debug probe, in order. -/
inductive ProbeOp where
  | resetHalt
  | writeMem (addr : Nat) (bytes : List Nat)
  | writeReg (reg : CoreReg) (value : Nat)
  | run
  deriving DecidableEq, Repr

/-- Packet size used to copy the stub into RAM (lib.rs line 199): 256 bytes
in compatibility mode, else 64 KiB. -/
def stub_packet_size (compat : Bool) : Nat :=
  if compat then 256 else 64 * 1024

/-- The RAM load address of the stub (lib.rs line 201). -/
def STUB_LOAD_ADDR : Nat := 0x2005A000

/-- The stub copy loop (lib.rs lines 203-209): while data remains, write the
next `min (data.len) packet` bytes at the cursor and advance the cursor by
the chunk length.  `p1 + 1` is the packet size (both source packet sizes are
positive; the successor form makes termination structural in the data). -/
def write_stub_go (p1 : Nat) : Nat → List Nat → List ProbeOp
  | _, [] => []
  | addr, b :: bs =>
    let data := b :: bs
    let chunk := data.take (min data.length (p1 + 1))
    ProbeOp.writeMem addr chunk ::
      write_stub_go p1 (addr + chunk.length) (data.drop chunk.length)
  termination_by _ data => data.length
  decreasing_by
    simp [List.length_drop, List.length_take]

/-- Little-endian decoding of four bytes, as `u32::from_le_bytes`. -/
def leWord (b0 b1 b2 b3 : Nat) : Nat :=
  b0 + b1 * 256 + b2 * 65536 + b3 * 16777216

/-- Embeds `download_stub` of lib.rs, from `reset_and_halt` on: halt the
core, copy the stub image into RAM at the fixed load address in packets,
decode SP from stub bytes 0-3 and PC from bytes 4-7 (little-endian), write
SP then PC, then resume the core.  A stub shorter than 8 bytes makes the
source panic on the `try_into().expect(..)` slices, modeled as `none`. -/
def download_stub (compat : Bool) (stub : List Nat) : Option (List ProbeOp) :=
  if 8 ≤ stub.length then
    let packet := stub_packet_size compat
    let writes := write_stub_go (packet - 1) STUB_LOAD_ADDR stub
    let sp := leWord (stub.getD 0 0) (stub.getD 1 0) (stub.getD 2 0) (stub.getD 3 0)
    let pc := leWord (stub.getD 4 0) (stub.getD 5 0) (stub.getD 6 0) (stub.getD 7 0)
    some (ProbeOp.resetHalt :: writes ++
      [ProbeOp.writeReg CoreReg.SP sp, ProbeOp.writeReg CoreReg.PC pc, ProbeOp.run])
  else none

/-- The memory writes of a probe-operation list, in order. -/
def memWrites : List ProbeOp → List (Nat × List Nat)
  | [] => []
  | ProbeOp.writeMem a bs :: rest => (a, bs) :: memWrites rest
  | _ :: rest => memWrites rest

/-- Memory writes are contiguous from `addr`: each write lands at the cursor
and advances it by its length. -/
def contiguousFrom : Nat → List (Nat × List Nat) → Prop
  | _, [] => True
  | addr, (a, bs) :: rest => a = addr ∧ contiguousFrom (addr + bs.length) rest

/-! ## Helper lemmas -/

theorem crc32_update_append (crc : Nat) (a b : List Nat) :
    crc32_update crc (a ++ b) = crc32_update (crc32_update crc a) b :=
  List.foldl_append _ _ _ _

/-- Feeding the digest buffer by buffer computes the digest of the whole
byte stream: the loop of `get_file_crc32` agrees with `crc32_update` for
every buffer size. -/
theorem get_file_crc32_go_eq (k crc : Nat) (l : List Nat) :
    get_file_crc32_go k crc l = crc32_update crc l := by
  induction crc, l using get_file_crc32_go.induct k with
  | case1 crc => rw [get_file_crc32_go]; rfl
  | case2 crc b rest ih =>
    rw [get_file_crc32_go, ih, ← crc32_update_append]
    simp

theorem get_file_crc32_eq (l : List Nat) : get_file_crc32 l = crc32 l :=
  get_file_crc32_go_eq 4095 0 l

theorem sub_infix_of_append {s l : List Nat} (m : List Nat) (h : s <:+: l) :
    s <:+: l ++ m := by
  obtain ⟨t, u, rfl⟩ := h
  exact ⟨t, u ++ m, by simp⟩

/-- Closed form of the per-byte token scan: the table is tried in its fixed
order OK, Fail, RX_WAIT and the first contained token decides. -/
theorem scanResponse_eq (buffer : List Nat) :
    scanResponse buffer =
      if strBytes "OK" <:+: buffer then some Response.Ok
      else if strBytes "Fail" <:+: buffer then some Response.Fail
      else if strBytes "RX_WAIT" <:+: buffer then some Response.RxWait
      else none := by
  by_cases h1 : strBytes "OK" <:+: buffer <;>
    by_cases h2 : strBytes "Fail" <:+: buffer <;>
      by_cases h3 : strBytes "RX_WAIT" <:+: buffer <;>
        simp [scanResponse, RESPONSE_STR_TABLE, List.find?, bufferHasToken,
          h1, h2, h3, response_from_str]

/-! ## Claim C1 — hex_to_bin on a linear-address switch -/

/-- The claimed scenario input: two Data records, the second preceded by an
ExtendedLinearAddress record changing the upper 16 bits. -/
def c1_input : List IhexRecord :=
  [IhexRecord.ExtendedLinearAddress 0x1200,
   IhexRecord.Data 0 [1, 2, 3, 4],
   IhexRecord.ExtendedLinearAddress 0x1201,
   IhexRecord.Data 16 [5, 6, 7, 8],
   IhexRecord.EndOfFile]

/-- Claim C1 (code_bug evidence).  On a HEX input whose second Data record
is preceded by an ExtendedLinearAddress record changing the upper 16 bits,
`hex_to_bin` does NOT return two chunks at two base addresses: chunks are
finalized only at EndOfFile records, of which an Intel-HEX file has one, so
it returns a single chunk, addressed at the base set by the LAST
ExtendedLinearAddress record, whose buffer merges both Data records (the
first record's bytes end up attributed to the wrong base address). -/
theorem claim_C1_code_behavior :
    (hex_to_bin c1_input).length = 1 ∧
    (hex_to_bin c1_input).map WriteFlashFile.address = [0x12010000] ∧
    (hex_to_bin c1_input).map WriteFlashFile.file =
      [[1, 2, 3, 4] ++ List.replicate 12 0xFF ++ [5, 6, 7, 8]] := by
  refine ⟨rfl, rfl, ?_⟩
  simp [hex_to_bin, hex_to_bin_go, c1_input, hexWriteAt, mkWriteFlashFile]

/-! ## Claim C2 — stale inbound bytes are cleared before awaiting -/

/-- Claim C2 (confirmed).  `command` writes the rendered command, flushes,
and clears the inbound buffer before its read loop starts, so whatever stale
bytes were buffered from a prior (for example timed-out) exchange cannot
influence the decoded response: the outcome only depends on the bytes that
arrive after the send. -/
theorem claim_C2_stale_bytes_ignored (cmd : Command)
    (stale incoming written : List Nat) :
    (command cmd { pending := stale, incoming := incoming, written := written }).2 =
      (command cmd { pending := [], incoming := incoming, written := written }).2 := by
  cases cmd <;>
    simp [command, port_write, port_clear_all, port_read_stream]

/-! ## Claim C5 — erase-all bank deduplication -/

/-- Dedup invariant of the erase-all loop, generalized over the already
erased banks. -/
theorem erase_all_go_countP (b : Nat) (files : List WriteFlashFile) :
    ∀ erased : List Nat,
      (erase_all_go erased files).countP (isEraseAllForBank b) =
        if b ∈ files.map (fun f => bankOf f.address) ∧ b ∉ erased then 1
        else 0 := by
  induction files with
  | nil => intro erased; simp [erase_all_go]
  | cons f fs ih =>
    intro erased
    rw [erase_all_go]
    by_cases hc : (f.address &&& 0xFF000000) ∈ erased
    · rw [if_pos (List.elem_iff.mpr hc), ih erased]
      have hiff : (b ∈ fs.map (fun g => bankOf g.address) ∧ b ∉ erased) ↔
          (b ∈ (f :: fs).map (fun g => bankOf g.address) ∧ b ∉ erased) := by
        simp only [List.map_cons, List.mem_cons]
        constructor
        · rintro ⟨h1, h2⟩
          exact ⟨Or.inr h1, h2⟩
        · rintro ⟨h1 | h1, h2⟩
          · exact absurd (by rw [h1, bankOf]; exact hc) h2
          · exact ⟨h1, h2⟩
      rw [if_congr hiff rfl rfl]
    · rw [if_neg (by simpa [List.elem_iff] using hc), List.countP_cons,
        ih (erased ++ [f.address &&& 0xFF000000])]
      by_cases hb : b = f.address &&& 0xFF000000
      · subst hb
        have hp : isEraseAllForBank (f.address &&& 0xFF000000)
            (Command.EraseAll f.address) = true := by
          simp [isEraseAllForBank, bankOf]
        rw [hp]
        have hnot : ¬ ((f.address &&& 0xFF000000) ∈
              fs.map (fun g => bankOf g.address) ∧
            (f.address &&& 0xFF000000) ∉ erased ++ [f.address &&& 0xFF000000]) := by
          rintro ⟨_, h2⟩
          exact h2 (by simp)
        rw [if_neg hnot]
        have hmem : (f.address &&& 0xFF000000) ∈
            List.map (fun g => bankOf g.address) (f :: fs) := by
          simp [bankOf]
        rw [if_pos (And.intro hmem hc)]
        simp
      · have hp : isEraseAllForBank b (Command.EraseAll f.address) = false := by
          simp only [isEraseAllForBank, bankOf]
          simp only [beq_eq_false_iff_ne, ne_eq]
          exact fun h => hb h.symm
        rw [hp]
        have hiff : (b ∈ fs.map (fun g => bankOf g.address) ∧
              b ∉ erased ++ [f.address &&& 0xFF000000]) ↔
            (b ∈ (f :: fs).map (fun g => bankOf g.address) ∧ b ∉ erased) := by
          simp only [List.map_cons, List.mem_cons, List.mem_append,
            List.not_mem_nil, or_false]
          constructor
          · rintro ⟨h1, h2⟩
            exact ⟨Or.inr h1, fun hm => h2 (Or.inl hm)⟩
          · rintro ⟨h1 | h1, h2⟩
            · exact absurd (by rw [bankOf] at h1; exact h1) hb
            · exact ⟨h1, fun hm => hm.elim h2 hb⟩
        rw [if_congr hiff rfl rfl]
        simp

/-- Claim C5 (confirmed).  In erase-all mode exactly one EraseAll command is
issued per distinct bank (address masked to its top byte) appearing across
the chunks, and on the three-chunk scenario at 0x12000000, 0x12010000,
0x10000000 exactly two EraseAll commands are issued (for the two distinct
banks), not three. -/
theorem claim_C5_erase_all_dedup :
    (∀ (files : List WriteFlashFile) (b : Nat),
        (erase_all files).countP (isEraseAllForBank b) =
          if b ∈ files.map (fun f => bankOf f.address) then 1 else 0)
  ∧ erase_all
      [mkWriteFlashFile 0x12000000 [], mkWriteFlashFile 0x12010000 [],
       mkWriteFlashFile 0x10000000 []] =
      [Command.EraseAll 0x12000000, Command.EraseAll 0x10000000] := by
  constructor
  · intro files b
    have h := erase_all_go_countP b files []
    rw [erase_all, h]
    simp
  · rfl

/-- The empty accumulator contains no token yet. -/
theorem scanResponse_nil : scanResponse [] = none := by decide

/-- If no token occurs anywhere in the remaining byte stream appended to the
accumulator, the read loop exhausts the stream: the deadline expires with a
timeout error. -/
theorem readResponse_go_no_token :
    ∀ (rest buffer : List Nat),
      ¬ strBytes "OK" <:+: buffer ++ rest →
      ¬ strBytes "Fail" <:+: buffer ++ rest →
      ¬ strBytes "RX_WAIT" <:+: buffer ++ rest →
      readResponse_go buffer rest = Except.error CmdError.timedOut := by
  intro rest
  induction rest with
  | nil => intro buffer _ _ _; rfl
  | cons b rs ih =>
    intro buffer hOK hFail hRx
    have hb : buffer ++ b :: rs = (buffer ++ [b]) ++ rs := by simp
    rw [hb] at hOK hFail hRx
    have hOKb : ¬ strBytes "OK" <:+: buffer ++ [b] :=
      fun h => hOK (sub_infix_of_append rs h)
    have hFailb : ¬ strBytes "Fail" <:+: buffer ++ [b] :=
      fun h => hFail (sub_infix_of_append rs h)
    have hRxb : ¬ strBytes "RX_WAIT" <:+: buffer ++ [b] :=
      fun h => hRx (sub_infix_of_append rs h)
    rw [readResponse_go, scanResponse_eq, if_neg hOKb, if_neg hFailb,
      if_neg hRxb]
    exact ih (buffer ++ [b]) hOK hFail hRx

/-- If RX_WAIT occurs in the stream and neither OK nor Fail does, the read
loop terminates with RxWait (at latest when the last byte of the token has
been accumulated). -/
theorem readResponse_go_rxwait :
    ∀ (rest buffer : List Nat),
      ¬ strBytes "OK" <:+: buffer ++ rest →
      ¬ strBytes "Fail" <:+: buffer ++ rest →
      strBytes "RX_WAIT" <:+: buffer ++ rest →
      scanResponse buffer = none →
      readResponse_go buffer rest = Except.ok Response.RxWait := by
  intro rest
  induction rest with
  | nil =>
    intro buffer hOK hFail hRx hscan
    exfalso
    rw [List.append_nil] at hOK hFail hRx
    rw [scanResponse_eq, if_neg hOK, if_neg hFail, if_pos hRx] at hscan
    exact Option.noConfusion hscan
  | cons b rs ih =>
    intro buffer hOK hFail hRx hscan
    have hb : buffer ++ b :: rs = (buffer ++ [b]) ++ rs := by simp
    rw [hb] at hOK hFail hRx
    have hOKb : ¬ strBytes "OK" <:+: buffer ++ [b] :=
      fun h => hOK (sub_infix_of_append rs h)
    have hFailb : ¬ strBytes "Fail" <:+: buffer ++ [b] :=
      fun h => hFail (sub_infix_of_append rs h)
    by_cases hRxb : strBytes "RX_WAIT" <:+: buffer ++ [b]
    · rw [readResponse_go, scanResponse_eq, if_neg hOKb, if_neg hFailb,
        if_pos hRxb]
    · rw [readResponse_go, scanResponse_eq, if_neg hOKb, if_neg hFailb,
        if_neg hRxb]
      exact ih (buffer ++ [b]) hOK hFail hRx
        (by rw [scanResponse_eq, if_neg hOKb, if_neg hFailb, if_neg hRxb])

/-- Claim C6 (confirmed).  The response reader accumulates bytes one at a
time and classifies by substring containment of the literal tokens, so a
byte stream of garbage bytes surrounding RX_WAIT (and containing neither OK
nor Fail) is classified as RxWait, not as a timeout. -/
theorem claim_C6_token_scan (stream : List Nat)
    (hOK : ¬ strBytes "OK" <:+: stream)
    (hFail : ¬ strBytes "Fail" <:+: stream)
    (hRx : strBytes "RX_WAIT" <:+: stream) :
    readResponse stream = Except.ok Response.RxWait := by
  rw [readResponse]
  exact readResponse_go_rxwait stream []
    (by simpa using hOK) (by simpa using hFail) (by simpa using hRx)
    scanResponse_nil

/-- Witness for C6: a concrete response stream with diagnostic noise around
the RX_WAIT token. -/
theorem claim_C6_token_scan_witness :
    readResponse (strBytes "garbage..RX_WAITmore") = Except.ok Response.RxWait := by
  apply claim_C6_token_scan <;> decide

/-- Claim C7 (confirmed).  Each codec call gets a per-call response
deadline: 30000 ms for EraseAll, 4000 ms for every other command; a stream
in which no token is found within the deadline yields a timeout error,
which is a different outcome from a decoded Fail response. -/
theorem claim_C7_response_deadlines :
    (∀ a, timeout_for (Command.EraseAll a) = 30000)
  ∧ (∀ cmd : Command, (∀ a, cmd ≠ Command.EraseAll a) → timeout_for cmd = 4000)
  ∧ (∀ stream : List Nat,
      (∀ t ∈ RESPONSE_STR_TABLE, ¬ strBytes t <:+: stream) →
      readResponse stream = Except.error CmdError.timedOut)
  ∧ (∀ r : Response,
      (Except.error CmdError.timedOut : Except CmdError Response) ≠ Except.ok r) := by
  refine ⟨fun a => rfl, fun cmd h => ?_, fun stream h => ?_, fun r => ?_⟩
  · cases cmd with
    | EraseAll a => exact absurd rfl (h a)
    | _ => rfl
  · rw [readResponse]
    refine readResponse_go_no_token stream [] ?_ ?_ ?_ <;>
      simpa using h _ (by simp [RESPONSE_STR_TABLE])
  · intro h
    exact Except.noConfusion h

/-- Witness for C7 at concrete inputs: the EraseAll deadline, the default
deadline of a Verify, and a timeout on a token-free stream. -/
theorem claim_C7_response_deadlines_witness :
    timeout_for (Command.EraseAll 0x10000000) = 30000 ∧
    timeout_for (Command.Verify 1 2 3) = 4000 ∧
    readResponse (strBytes "noise") = Except.error CmdError.timedOut := by
  refine ⟨claim_C7_response_deadlines.1 _,
    claim_C7_response_deadlines.2.1 _ (fun a h => Command.noConfusion h), ?_⟩
  exact claim_C7_response_deadlines.2.2.1 _ (by decide)

/-! ## Claim C3 — chunk list ordering -/

/-- Counterexample to C3 as stated: two raw-binary inputs given in
descending address order are collected in input order, so the chunk list
handed to the orchestrator is neither sorted ascending nor checked for
overlap. -/
theorem claim_C3_counterexample :
    disjointSortedAsc (collect_write_flash_files
      [InputFile.binAt 0x2000 [0xAA], InputFile.binAt 0x1000 [0xBB]]) = false := by
  rfl

/-- Appending one more chunk whose address is at or past the end of the
last chunk preserves the disjoint-sorted chain. -/
theorem disjointSortedAsc_append_last (files : List WriteFlashFile)
    (g : WriteFlashFile) (h1 : disjointSortedAsc files = true)
    (h2 : ∀ f ∈ files.getLast?, chunkEnd f ≤ g.address) :
    disjointSortedAsc (files ++ [g]) = true := by
  induction files with
  | nil => rfl
  | cons a rest ih =>
    cases rest with
    | nil =>
      have ha := h2 a rfl
      simp [disjointSortedAsc, ha]
    | cons b rest2 =>
      simp only [disjointSortedAsc] at h1
      rw [List.cons_append]
      simp only [disjointSortedAsc]
      have hparts := Bool.and_eq_true_iff.mp h1
      refine Bool.and_eq_true_iff.mpr ⟨hparts.1, ?_⟩
      refine ih hparts.2 ?_
      intro f hf
      refine h2 f ?_
      rwa [List.getLast?_cons_cons]

/-- Step `elf_push_if_new` preserves the loop invariants of `elf_to_bin`. -/
theorem elf_push_if_new_inv (acc : ElfAcc) (sb : Nat)
    (h1 : disjointSortedAsc acc.files = true)
    (h2 : ∀ f ∈ acc.files.getLast?, chunkEnd f ≤ acc.base)
    (h3 : acc.off = acc.cur.length) :
    disjointSortedAsc (elf_push_if_new acc sb).files = true ∧
    (∀ f ∈ (elf_push_if_new acc sb).files.getLast?,
      chunkEnd f ≤ (elf_push_if_new acc sb).base) ∧
    (elf_push_if_new acc sb).off = (elf_push_if_new acc sb).cur.length := by
  unfold elf_push_if_new
  by_cases hp : acc.base + acc.off < sb
  · rw [if_pos hp]
    refine ⟨disjointSortedAsc_append_last _ _ h1 h2, ?_, rfl⟩
    intro f hf
    rw [List.getLast?_concat] at hf
    cases hf
    show chunkEnd (mkWriteFlashFile acc.base acc.cur) ≤ sb
    simp only [chunkEnd, mkWriteFlashFile]
    omega
  · rw [if_neg hp]
    exact ⟨h1, h2, h3⟩

/-- Step `elf_pad_gap` preserves the loop invariants of `elf_to_bin`. -/
theorem elf_pad_gap_inv (acc : ElfAcc) (rel : Nat)
    (h1 : disjointSortedAsc acc.files = true)
    (h2 : ∀ f ∈ acc.files.getLast?, chunkEnd f ≤ acc.base)
    (h3 : acc.off = acc.cur.length) :
    disjointSortedAsc (elf_pad_gap acc rel).files = true ∧
    (∀ f ∈ (elf_pad_gap acc rel).files.getLast?,
      chunkEnd f ≤ (elf_pad_gap acc rel).base) ∧
    (elf_pad_gap acc rel).off = (elf_pad_gap acc rel).cur.length := by
  unfold elf_pad_gap
  by_cases hp : acc.off < rel
  · rw [if_pos hp]
    refine ⟨h1, h2, ?_⟩
    simp only [List.length_append, List.length_replicate]
    omega
  · rw [if_neg hp]
    exact ⟨h1, h2, h3⟩

/-- Step `elf_step` preserves the loop invariants of `elf_to_bin`. -/
theorem elf_step_inv (acc : ElfAcc) (ph : ProgramHeader)
    (h1 : disjointSortedAsc acc.files = true)
    (h2 : ∀ f ∈ acc.files.getLast?, chunkEnd f ≤ acc.base)
    (h3 : acc.off = acc.cur.length) :
    disjointSortedAsc (elf_step acc ph).files = true ∧
    (∀ f ∈ (elf_step acc ph).files.getLast?,
      chunkEnd f ≤ (elf_step acc ph).base) ∧
    (elf_step acc ph).off = (elf_step acc ph).cur.length := by
  have hi1 := elf_push_if_new_inv acc (alignDown ph.p_paddr) h1 h2 h3
  have hi2 := elf_pad_gap_inv (elf_push_if_new acc (alignDown ph.p_paddr))
    (ph.p_paddr - (elf_push_if_new acc (alignDown ph.p_paddr)).base)
    hi1.1 hi1.2.1 hi1.2.2
  unfold elf_step
  refine ⟨hi2.1, hi2.2.1, ?_⟩
  simp only [List.length_append]
  omega

/-- The whole segment fold preserves the loop invariants. -/
theorem elf_fold_inv (phs : List ProgramHeader) :
    ∀ acc : ElfAcc,
      disjointSortedAsc acc.files = true →
      (∀ f ∈ acc.files.getLast?, chunkEnd f ≤ acc.base) →
      acc.off = acc.cur.length →
      disjointSortedAsc (phs.foldl elf_step acc).files = true ∧
      (∀ f ∈ (phs.foldl elf_step acc).files.getLast?,
        chunkEnd f ≤ (phs.foldl elf_step acc).base) ∧
      (phs.foldl elf_step acc).off = (phs.foldl elf_step acc).cur.length := by
  induction phs with
  | nil => intro acc h1 h2 h3; exact ⟨h1, h2, h3⟩
  | cons ph rest ih =>
    intro acc h1 h2 h3
    have hstep := elf_step_inv acc ph h1 h2 h3
    exact ih (elf_step acc ph) hstep.1 hstep.2.1 hstep.2.2

/-- Claim C3 amended (the part that holds).  Within a single ELF input the
Normalizer's chunks are disjoint in address ranges and sorted ascending by
address; across multiple input files `write_flash` appends chunks in input
order without sorting or overlap checking (see the counterexample). -/
theorem claim_C3_amended_single_elf_sorted (phs : List ProgramHeader) :
    disjointSortedAsc
      (collect_write_flash_files [InputFile.elfFile phs]) = true := by
  have hcollect : collect_write_flash_files [InputFile.elfFile phs] =
      elf_to_bin phs := by
    simp [collect_write_flash_files]
  rw [hcollect, elf_to_bin]
  generalize List.insertionSort (fun a b => a.p_paddr ≤ b.p_paddr)
      (phs.filter (fun ph => ph.p_type == PT_LOAD && ph.p_paddr < 0x20000000)) =
    segs
  cases segs with
  | nil => rfl
  | cons s0 srest =>
    rw [elf_chunks]
    have hinv := elf_fold_inv (s0 :: srest)
      { files := [], cur := [], base := alignDown s0.p_paddr, off := 0 }
      rfl (by intro f hf; cases hf) rfl
    by_cases hoff : 0 < ((s0 :: srest).foldl elf_step
        { files := [], cur := [], base := alignDown s0.p_paddr, off := 0 }).off
    · rw [if_pos hoff]
      exact disjointSortedAsc_append_last _ _ hinv.1 hinv.2.1
    · rw [if_neg hoff]
      exact hinv.1

/-! ## Claim C4 — streaming responses in the non-erase-all write path -/

/-- Unfolding step: a full read that gets answer Ok does NOT end the loop;
the source falls through and keeps streaming the rest of the file. -/
theorem stream_payloads_ok_step (k : Nat) (data : List Nat)
    (rs : List Response) (hne : data.take k ≠ []) :
    stream_payloads k data (Response.Ok :: rs) =
      (data.take k :: (stream_payloads k (data.drop k) rs).1,
       (stream_payloads k (data.drop k) rs).2) := by
  rw [stream_payloads.eq_def, dif_neg hne]
  simp

/-- Unfolding step: answer RxWait continues the loop. -/
theorem stream_payloads_rxwait_step (k : Nat) (data : List Nat)
    (rs : List Response) (hne : data.take k ≠ []) :
    stream_payloads k data (Response.RxWait :: rs) =
      (data.take k :: (stream_payloads k (data.drop k) rs).1,
       (stream_payloads k (data.drop k) rs).2) := by
  rw [stream_payloads.eq_def, dif_neg hne]
  simp

/-- Unfolding step: an empty read ends the loop successfully. -/
theorem stream_payloads_done (k : Nat) (data : List Nat)
    (resps : List Response) (hnil : data.take k = []) :
    stream_payloads k data resps = ([], Except.ok ()) := by
  rw [stream_payloads.eq_def, dif_pos hnil]

/-- Unfolding step: any answer other than RxWait or Ok aborts the stream
with a write error. -/
theorem stream_payloads_abort (k : Nat) (data : List Nat) (r : Response)
    (rs : List Response) (hne : data.take k ≠ [])
    (hr1 : r ≠ Response.RxWait) (hr2 : r ≠ Response.Ok) :
    stream_payloads k data (r :: rs) =
      ([data.take k], Except.error FlashError.writeFailed) := by
  rw [stream_payloads.eq_def, dif_neg hne]
  simp [hr1, hr2]

/-- Counterexample to C4 as stated.  The claim says an Ok answer to a
streamed buffer completes the chunk and ends the loop; but on a chunk one
byte longer than the 128 KiB read buffer whose first buffer is answered Ok,
the source sends a second payload buffer (the loop only ends when the file
is exhausted), so two payloads are sent where the claim predicts one. -/
theorem claim_C4_counterexample :
    (stream_payloads STREAM_BUF_SIZE
        (List.replicate (STREAM_BUF_SIZE + 1) 0xAB)
        [Response.Ok, Response.Ok]).1 =
      [List.replicate STREAM_BUF_SIZE 0xAB, [0xAB]] ∧
    (stream_payloads STREAM_BUF_SIZE
        (List.replicate (STREAM_BUF_SIZE + 1) 0xAB)
        [Response.Ok, Response.Ok]).2 = Except.ok () := by
  have htake : (List.replicate (STREAM_BUF_SIZE + 1) (0xAB : Nat)).take
      STREAM_BUF_SIZE = List.replicate STREAM_BUF_SIZE (0xAB : Nat) := by
    rw [List.take_replicate]
    congr 1
  have hdrop : (List.replicate (STREAM_BUF_SIZE + 1) (0xAB : Nat)).drop
      STREAM_BUF_SIZE = [0xAB] := by
    rw [List.drop_replicate]
    norm_num [STREAM_BUF_SIZE, List.replicate_one]
  have hne : (List.replicate (STREAM_BUF_SIZE + 1) (0xAB : Nat)).take
      STREAM_BUF_SIZE ≠ [] := by
    rw [htake, Ne, List.replicate_eq_nil_iff]
    norm_num [STREAM_BUF_SIZE]
  rw [stream_payloads_ok_step _ _ _ hne, htake, hdrop]
  have htake2 : ([0xAB] : List Nat).take STREAM_BUF_SIZE = [0xAB] := by
    refine List.take_of_length_le ?_
    norm_num [STREAM_BUF_SIZE]
  have hne2 : ([0xAB] : List Nat).take STREAM_BUF_SIZE ≠ [] := by
    rw [htake2]
    exact List.cons_ne_nil _ _
  rw [stream_payloads_ok_step _ _ _ hne2]
  have hdrop2 : ([0xAB] : List Nat).drop STREAM_BUF_SIZE = [] := by
    refine List.drop_of_length_le ?_
    norm_num [STREAM_BUF_SIZE]
  rw [htake2, hdrop2,
    stream_payloads_done STREAM_BUF_SIZE [] [] (by rw [List.take_nil])]
  exact ⟨rfl, rfl⟩

/-- When the device answers every streamed buffer with Ok or RxWait and
does not stall (enough answers for every buffer), the loop streams the whole
file and ends successfully — an Ok mid-stream does not cut the transfer
short, only file exhaustion ends the loop. -/
theorem stream_payloads_complete (k : Nat) (data : List Nat)
    (resps : List Response) (hk : 0 < k)
    (hgood : ∀ r ∈ resps, r = Response.Ok ∨ r = Response.RxWait)
    (hlen : data.length ≤ k * resps.length) :
    (stream_payloads k data resps).1.flatten = data ∧
    (stream_payloads k data resps).2 = Except.ok () := by
  induction data, resps using stream_payloads.induct k with
  | case1 data resps h =>
    rw [stream_payloads_done k data resps h]
    rw [List.take_eq_nil_iff] at h
    rcases h with h | h
    · omega
    · subst h
      exact ⟨rfl, rfl⟩
  | case2 data h =>
    exfalso
    rw [List.take_eq_nil_iff] at h
    push_neg at h
    simp at hlen
    exact h.2 hlen
  | case3 data h rs ih =>
    rw [stream_payloads_rxwait_step k data rs h]
    have hgood2 : ∀ r ∈ rs, r = Response.Ok ∨ r = Response.RxWait :=
      fun r hr => hgood r (List.mem_cons_of_mem _ hr)
    have hlen2 : (data.drop k).length ≤ k * rs.length := by
      rw [List.length_cons, Nat.mul_succ] at hlen
      rw [List.length_drop]
      omega
    have hih := ih hgood2 hlen2
    refine ⟨?_, hih.2⟩
    rw [List.flatten_cons, hih.1, List.take_append_drop]
  | case4 data h r rs hr hr2 =>
    exfalso
    rcases hgood r (List.mem_cons_self r rs) with ho | ho
    · exact hr2 ho
    · exact hr ho
  | case5 data h r rs hr hr2 ih =>
    have hok : r = Response.Ok := not_not.mp hr2
    subst hok
    rw [stream_payloads_ok_step k data rs h]
    have hgood2 : ∀ r ∈ rs, r = Response.Ok ∨ r = Response.RxWait :=
      fun r hr => hgood r (List.mem_cons_of_mem _ hr)
    have hlen2 : (data.drop k).length ≤ k * rs.length := by
      rw [List.length_cons, Nat.mul_succ] at hlen
      rw [List.length_drop]
      omega
    have hih := ih hgood2 hlen2
    refine ⟨?_, hih.2⟩
    rw [List.flatten_cons, hih.1, List.take_append_drop]

/-- Claim C4 amended.  In non-erase-all mode: (1) the only acceptable
immediate response to WriteAndErase is RxWait — anything else is a fatal
write error before any payload is sent; (2) after each streamed buffer,
RxWait AND Ok both mean "keep streaming": the loop ends when the file is
exhausted, not at the first Ok (see the counterexample); (3) any response
other than RxWait or Ok aborts the stream with a write error. -/
theorem claim_C4_amended_stream_semantics (doVerify : Bool)
    (f : WriteFlashFile) (s : ChunkScript) :
    (s.verifyResp ≠ Response.Ok → s.writeEraseResp ≠ Response.RxWait →
      write_chunk_no_erase_all doVerify f s =
        ([HostAction.cmd (Command.Verify f.address f.file.length f.crc32),
          HostAction.cmd (Command.WriteAndErase f.address f.file.length)],
         Except.error FlashError.writeFailed))
  ∧ (∀ (k : Nat) (data : List Nat) (resps : List Response),
      0 < k → (∀ r ∈ resps, r = Response.Ok ∨ r = Response.RxWait) →
      data.length ≤ k * resps.length →
      (stream_payloads k data resps).1.flatten = data ∧
      (stream_payloads k data resps).2 = Except.ok ())
  ∧ (∀ (k : Nat) (data : List Nat) (r : Response) (rs : List Response),
      data.take k ≠ [] → r ≠ Response.RxWait → r ≠ Response.Ok →
      stream_payloads k data (r :: rs) =
        ([data.take k], Except.error FlashError.writeFailed)) := by
  refine ⟨fun h1 h2 => ?_, stream_payloads_complete, stream_payloads_abort⟩
  simp [write_chunk_no_erase_all, h1, h2]

/-- Witness for the amended C4 at concrete inputs: a rejected WriteAndErase,
a two-buffer stream answered Ok then RxWait that still transfers the whole
file, and a Fail answer aborting the stream. -/
theorem claim_C4_amended_stream_semantics_witness :
    write_chunk_no_erase_all false ⟨0x1000, [1, 2], 5⟩
        ⟨Response.Fail, Response.Ok, [], Response.Ok⟩ =
      ([HostAction.cmd (Command.Verify 0x1000 2 5),
        HostAction.cmd (Command.WriteAndErase 0x1000 2)],
       Except.error FlashError.writeFailed) ∧
    ((stream_payloads 2 [1, 2, 3] [Response.Ok, Response.RxWait]).1.flatten =
        [1, 2, 3] ∧
      (stream_payloads 2 [1, 2, 3] [Response.Ok, Response.RxWait]).2 =
        Except.ok ()) ∧
    stream_payloads 2 [9] [Response.Fail] =
      ([[9]], Except.error FlashError.writeFailed) := by
  refine ⟨?_, ?_, ?_⟩
  · exact (claim_C4_amended_stream_semantics false ⟨0x1000, [1, 2], 5⟩
      ⟨Response.Fail, Response.Ok, [], Response.Ok⟩).1 (by decide) (by decide)
  · exact (claim_C4_amended_stream_semantics false ⟨0x1000, [1, 2], 5⟩
      ⟨Response.Fail, Response.Ok, [], Response.Ok⟩).2.1 2 [1, 2, 3]
      [Response.Ok, Response.RxWait] (by decide) (by decide) (by decide)
  · exact (claim_C4_amended_stream_semantics false ⟨0x1000, [1, 2], 5⟩
      ⟨Response.Fail, Response.Ok, [], Response.Ok⟩).2.2 2 [9] Response.Fail []
      (by decide) (by decide) (by decide)

/-! ## Claim C8 — Verify-Ok skips the chunk -/

/-- Claim C8 (confirmed).  In non-erase-all mode, when the pre-write Verify
of a chunk is answered Ok, the orchestrator skips the chunk entirely: the
only action issued for it is that Verify command — no WriteAndErase, no
Write, no payload bytes, not even the optional post-write verify — and
processing continues with the remaining chunks unchanged. -/
theorem claim_C8_verify_ok_skips_chunk (doVerify : Bool) (f : WriteFlashFile)
    (s : ChunkScript) (rest : List (WriteFlashFile × ChunkScript))
    (h : s.verifyResp = Response.Ok) :
    write_flash_loop doVerify ((f, s) :: rest) =
      (HostAction.cmd (Command.Verify f.address f.file.length f.crc32) ::
        (write_flash_loop doVerify rest).1,
       (write_flash_loop doVerify rest).2) := by
  rw [write_flash_loop]
  simp [write_chunk_no_erase_all, h]

/-- Witness for C8: two chunks whose Verify is answered Ok produce exactly
their two Verify commands and a successful run. -/
theorem claim_C8_verify_ok_skips_chunk_witness :
    write_flash_loop true
      [(⟨0x1000, [1, 2], 5⟩,
        ⟨Response.Ok, Response.Fail, [], Response.Fail⟩),
       (⟨0x2000, [3], 6⟩,
        ⟨Response.Ok, Response.Ok, [], Response.Ok⟩)] =
      ([HostAction.cmd (Command.Verify 0x1000 2 5),
        HostAction.cmd (Command.Verify 0x2000 1 6)], Except.ok ()) := by
  rw [claim_C8_verify_ok_skips_chunk true ⟨0x1000, [1, 2], 5⟩
    ⟨Response.Ok, Response.Fail, [], Response.Fail⟩ _ rfl]
  rw [claim_C8_verify_ok_skips_chunk true ⟨0x2000, [3], 6⟩
    ⟨Response.Ok, Response.Ok, [], Response.Ok⟩ _ rfl]
  rfl

/-! ## Claim C9 — CRC32 parameterization and its consumers -/

/-- Every chunk finalized by the HEX converter carries the CRC32 of its own
buffer. -/
theorem hex_to_bin_go_crc (rs : List IhexRecord) :
    ∀ (address : Nat) (temp : List Nat) (f : WriteFlashFile),
      f ∈ hex_to_bin_go address temp rs → f.crc32 = crc32 f.file := by
  induction rs with
  | nil => intro a t f hf; cases hf
  | cons r rest ih =>
    intro a t f hf
    cases r with
    | ExtendedLinearAddress e => exact ih _ _ f hf
    | Data o v => exact ih _ _ f hf
    | EndOfFile =>
      rw [hex_to_bin_go] at hf
      rcases List.mem_cons.mp hf with h | h
      · subst h
        exact get_file_crc32_eq t
      · exact ih _ _ f h
    | Other => exact ih _ _ f hf

theorem elf_pad_gap_files (acc : ElfAcc) (rel : Nat) :
    (elf_pad_gap acc rel).files = acc.files := by
  unfold elf_pad_gap
  split <;> rfl

theorem elf_step_files (acc : ElfAcc) (ph : ProgramHeader) :
    (elf_step acc ph).files =
      (elf_push_if_new acc (alignDown ph.p_paddr)).files :=
  elf_pad_gap_files _ _

theorem elf_push_if_new_crc (acc : ElfAcc) (sb : Nat)
    (h : ∀ f ∈ acc.files, f.crc32 = crc32 f.file) :
    ∀ f ∈ (elf_push_if_new acc sb).files, f.crc32 = crc32 f.file := by
  unfold elf_push_if_new
  split
  · intro f hf
    rcases List.mem_append.mp hf with h1 | h1
    · exact h f h1
    · rcases List.mem_singleton.mp h1 with rfl
      exact get_file_crc32_eq acc.cur
  · exact h

theorem elf_fold_crc (phs : List ProgramHeader) :
    ∀ acc : ElfAcc, (∀ f ∈ acc.files, f.crc32 = crc32 f.file) →
      ∀ f ∈ (phs.foldl elf_step acc).files, f.crc32 = crc32 f.file := by
  induction phs with
  | nil => intro acc h; exact h
  | cons ph rest ih =>
    intro acc h
    refine ih (elf_step acc ph) ?_
    rw [elf_step_files]
    exact elf_push_if_new_crc acc _ h

theorem elf_chunks_crc (segs : List ProgramHeader) :
    ∀ f ∈ elf_chunks segs, f.crc32 = crc32 f.file := by
  cases segs with
  | nil => intro f hf; cases hf
  | cons s0 srest =>
    intro f hf
    have hall := elf_fold_crc (s0 :: srest)
      { files := [], cur := [], base := alignDown s0.p_paddr, off := 0 }
      (by intro g hg; cases hg)
    by_cases hoff : 0 < ((s0 :: srest).foldl elf_step
        { files := [], cur := [], base := alignDown s0.p_paddr, off := 0 }).off
    · rw [elf_chunks, if_pos hoff] at hf
      rcases List.mem_append.mp hf with h1 | h1
      · exact hall f h1
      · rcases List.mem_singleton.mp h1 with rfl
        exact get_file_crc32_eq _
    · rw [elf_chunks, if_neg hoff] at hf
      exact hall f hf

/-- Claim C9 (confirmed).  The CRC32 used everywhere is the reflected
CRC-32 with polynomial 0x04C11DB7, init 0, no final xor: its digest of the
ASCII bytes of the test vector is 0x2DFD2D88; the digest computed through
the file-read buffer is independent of the buffer size (any buffer size
`k + 1` gives the digest of the whole stream); and every chunk the
Normalizer hands out — raw binary, HEX or ELF — carries exactly this digest
of its own bytes (which Verify commands then reuse). -/
theorem claim_C9_crc32_parameterization :
    crc32 (strBytes "123456789") = 0x2DFD2D88
  ∧ (∀ (k : Nat) (bytes : List Nat), get_file_crc32_go k 0 bytes = crc32 bytes)
  ∧ (∀ (inputs : List InputFile) (f : WriteFlashFile),
      f ∈ collect_write_flash_files inputs → f.crc32 = crc32 f.file) := by
  refine ⟨by decide, fun k bytes => get_file_crc32_go_eq k 0 bytes, ?_⟩
  intro inputs f hf
  rw [collect_write_flash_files] at hf
  rcases List.mem_flatMap.mp hf with ⟨i, hi, hfi⟩
  cases i with
  | binAt a d =>
    rcases List.mem_singleton.mp hfi with rfl
    exact get_file_crc32_eq d
  | hexFile rs => exact hex_to_bin_go_crc rs 0 [] f hfi
  | elfFile phs => exact elf_chunks_crc _ f hfi

/-- Witness for C9: a concrete buffer size and a concrete collected chunk. -/
theorem claim_C9_crc32_parameterization_witness :
    get_file_crc32_go 0 0 [1, 2, 3] = crc32 [1, 2, 3] ∧
    (mkWriteFlashFile 7 [4, 5]).crc32 = crc32 [4, 5] := by
  constructor
  · exact claim_C9_crc32_parameterization.2.1 0 [1, 2, 3]
  · exact claim_C9_crc32_parameterization.2.2 [InputFile.binAt 7 [4, 5]]
      (mkWriteFlashFile 7 [4, 5]) (by simp [collect_write_flash_files])

/-! ## Claim C10 — stub download into RAM -/

theorem write_stub_go_nil (p1 addr : Nat) : write_stub_go p1 addr [] = [] := by
  rw [write_stub_go]

theorem memWrites_append (a b : List ProbeOp) :
    memWrites (a ++ b) = memWrites a ++ memWrites b := by
  induction a with
  | nil => rfl
  | cons op rest ih =>
    cases op with
    | writeMem x y => simp [memWrites, ih]
    | resetHalt => simp [memWrites, ih]
    | writeReg r v => simp [memWrites, ih]
    | run => simp [memWrites, ih]

/-- The stub copy loop writes contiguous packets starting at the given
cursor: each write lands at the advanced cursor, the packets reassemble the
image exactly, no packet exceeds the packet size `p1 + 1`, and every packet
except possibly the last is exactly the packet size. -/
theorem write_stub_go_spec (p1 : Nat) :
    ∀ (n : Nat) (data : List Nat), data.length ≤ n → ∀ addr : Nat,
      contiguousFrom addr (memWrites (write_stub_go p1 addr data)) ∧
      ((memWrites (write_stub_go p1 addr data)).map Prod.snd).flatten = data ∧
      (∀ w ∈ memWrites (write_stub_go p1 addr data), w.2.length ≤ p1 + 1) ∧
      (∀ w ∈ (memWrites (write_stub_go p1 addr data)).dropLast,
        w.2.length = p1 + 1) := by
  intro n
  induction n with
  | zero =>
    intro data hlen addr
    have hdata : data = [] := List.length_eq_zero.mp (Nat.le_zero.mp hlen)
    subst hdata
    rw [write_stub_go_nil]
    exact ⟨trivial, rfl, fun w hw => absurd hw (List.not_mem_nil w),
      fun w hw => absurd hw (List.not_mem_nil w)⟩
  | succ n ih =>
    intro data hlen addr
    cases data with
    | nil =>
      rw [write_stub_go_nil]
      exact ⟨trivial, rfl, fun w hw => absurd hw (List.not_mem_nil w),
        fun w hw => absurd hw (List.not_mem_nil w)⟩
    | cons b bs =>
      rw [write_stub_go]
      simp only [memWrites]
      set c : List Nat := (b :: bs).take (min (b :: bs).length (p1 + 1)) with hc
      have hlen1 : 0 < (b :: bs).length := by simp
      have hclen : c.length = min (b :: bs).length (p1 + 1) := by
        rw [hc, List.length_take]
        omega
      have hcpos : 0 < c.length := by omega
      have hdlen : ((b :: bs).drop c.length).length ≤ n := by
        rw [List.length_drop]
        have := hlen
        simp only [List.length_cons] at this ⊢
        omega
      have ihd := ih ((b :: bs).drop c.length) hdlen (addr + c.length)
      refine ⟨⟨rfl, ihd.1⟩, ?_, ?_, ?_⟩
      · simp only [List.map_cons, List.flatten_cons]
        rw [ihd.2.1, hclen, hc]
        have : min (b :: bs).length (p1 + 1) =
            ((b :: bs).take (min (b :: bs).length (p1 + 1))).length := by
          rw [List.length_take]
          omega
        rw [← hc, ← hclen, hc, hclen]
        exact List.take_append_drop _ _
      · intro w hw
        rcases List.mem_cons.mp hw with h1 | h1
        · subst h1
          simpa [hclen] using Nat.min_le_right (b :: bs).length (p1 + 1)
        · exact ihd.2.2.1 w h1
      · by_cases hrest :
          memWrites (write_stub_go p1 (addr + c.length)
            ((b :: bs).drop c.length)) = []
        · rw [hrest]
          intro w hw
          cases hw
        · rw [List.dropLast_cons_of_ne_nil hrest]
          intro w hw
          rcases List.mem_cons.mp hw with h1 | h1
          · subst h1
            have hdne : (b :: bs).drop c.length ≠ [] := by
              intro hnil
              rw [hnil, write_stub_go_nil] at hrest
              exact hrest rfl
            have hdpos : 0 < ((b :: bs).drop c.length).length :=
              List.length_pos.mpr hdne
            rw [List.length_drop] at hdpos
            show c.length = p1 + 1
            omega
          · exact ihd.2.2.2 w h1

/-- Claim C10 (confirmed).  During bootstrap the stub image is written into
target RAM at the fixed load address 0x2005A000 in packets of the configured
size (256 bytes in compatibility mode, else 64 KiB) with the write cursor
advanced after each packet — the packets are contiguous, reassemble the
image exactly, and all but the last are full-size — and the image's first 8
bytes, decoded little-endian, are written as SP (bytes 0-3) and PC (bytes
4-7) before the core is resumed. -/
theorem claim_C10_download_stub (compat : Bool) (stub : List Nat)
    (h : 8 ≤ stub.length) :
    ∃ ops : List ProbeOp,
      download_stub compat stub = some ops ∧
      contiguousFrom STUB_LOAD_ADDR (memWrites ops) ∧
      ((memWrites ops).map Prod.snd).flatten = stub ∧
      (∀ w ∈ memWrites ops, w.2.length ≤ stub_packet_size compat) ∧
      (∀ w ∈ (memWrites ops).dropLast,
        w.2.length = stub_packet_size compat) ∧
      (∃ pre : List ProbeOp, ops = pre ++
        [ProbeOp.writeReg CoreReg.SP
          (leWord (stub.getD 0 0) (stub.getD 1 0) (stub.getD 2 0)
            (stub.getD 3 0)),
         ProbeOp.writeReg CoreReg.PC
          (leWord (stub.getD 4 0) (stub.getD 5 0) (stub.getD 6 0)
            (stub.getD 7 0)),
         ProbeOp.run]) := by
  have hpack : stub_packet_size compat - 1 + 1 = stub_packet_size compat := by
    cases compat <;> rfl
  have hspec := write_stub_go_spec (stub_packet_size compat - 1) stub.length
    stub (Nat.le_refl _) STUB_LOAD_ADDR
  rw [hpack] at hspec
  set W : List ProbeOp :=
    write_stub_go (stub_packet_size compat - 1) STUB_LOAD_ADDR stub with hW
  set T : List ProbeOp :=
    [ProbeOp.writeReg CoreReg.SP
      (leWord (stub.getD 0 0) (stub.getD 1 0) (stub.getD 2 0) (stub.getD 3 0)),
     ProbeOp.writeReg CoreReg.PC
      (leWord (stub.getD 4 0) (stub.getD 5 0) (stub.getD 6 0) (stub.getD 7 0)),
     ProbeOp.run] with hT
  have hmw : memWrites (ProbeOp.resetHalt :: (W ++ T)) = memWrites W := by
    rw [show memWrites (ProbeOp.resetHalt :: (W ++ T)) =
      memWrites (W ++ T) from rfl, memWrites_append]
    rw [hT]
    rw [show memWrites
      [ProbeOp.writeReg CoreReg.SP
        (leWord (stub.getD 0 0) (stub.getD 1 0) (stub.getD 2 0)
          (stub.getD 3 0)),
       ProbeOp.writeReg CoreReg.PC
        (leWord (stub.getD 4 0) (stub.getD 5 0) (stub.getD 6 0)
          (stub.getD 7 0)),
       ProbeOp.run] = [] from rfl, List.append_nil]
  refine ⟨ProbeOp.resetHalt :: (W ++ T), ?_, ?_, ?_, ?_, ?_,
    ⟨ProbeOp.resetHalt :: W, by simp⟩⟩
  · rw [hW, hT]
    simp [download_stub, h]
  · rw [hmw]
    exact hspec.1
  · rw [hmw]
    exact hspec.2.1
  · rw [hmw]
    exact hspec.2.2.1
  · rw [hmw]
    exact hspec.2.2.2

/-- Witness for C10 on a concrete 8-byte stub image in compatibility
mode. -/
theorem claim_C10_download_stub_witness :
    ∃ ops : List ProbeOp,
      download_stub true [0x00, 0xA0, 0x05, 0x20, 0x01, 0x00, 0x00, 0x10] =
        some ops ∧
      contiguousFrom STUB_LOAD_ADDR (memWrites ops) ∧
      ((memWrites ops).map Prod.snd).flatten =
        [0x00, 0xA0, 0x05, 0x20, 0x01, 0x00, 0x00, 0x10] ∧
      (∀ w ∈ memWrites ops, w.2.length ≤ stub_packet_size true) ∧
      (∀ w ∈ (memWrites ops).dropLast,
        w.2.length = stub_packet_size true) ∧
      (∃ pre : List ProbeOp, ops = pre ++
        [ProbeOp.writeReg CoreReg.SP
          (leWord
            (([0x00, 0xA0, 0x05, 0x20, 0x01, 0x00, 0x00, 0x10].getD 0 0))
            (([0x00, 0xA0, 0x05, 0x20, 0x01, 0x00, 0x00, 0x10].getD 1 0))
            (([0x00, 0xA0, 0x05, 0x20, 0x01, 0x00, 0x00, 0x10].getD 2 0))
            (([0x00, 0xA0, 0x05, 0x20, 0x01, 0x00, 0x00, 0x10].getD 3 0))),
         ProbeOp.writeReg CoreReg.PC
          (leWord
            (([0x00, 0xA0, 0x05, 0x20, 0x01, 0x00, 0x00, 0x10].getD 4 0))
            (([0x00, 0xA0, 0x05, 0x20, 0x01, 0x00, 0x00, 0x10].getD 5 0))
            (([0x00, 0xA0, 0x05, 0x20, 0x01, 0x00, 0x00, 0x10].getD 6 0))
            (([0x00, 0xA0, 0x05, 0x20, 0x01, 0x00, 0x00, 0x10].getD 7 0))),
         ProbeOp.run]) :=
  claim_C10_download_stub true [0x00, 0xA0, 0x05, 0x20, 0x01, 0x00, 0x00, 0x10]
    (by decide)
